import Mathlib

/-!
Verification of the adevice synchronization engine (tools/asuite/adevice).

Shallow embedding of the Rust sources:
  * fingerprint.rs — file metadata, the diff engine, host fingerprinting
  * commands.rs    — adb command composition and the combined restart decision
  * restart_chooser.rs — per-file restart classification from module-info
  * device.rs      — ordering comparator for applying adb commands
  * adevice.rs     — per-path push-state classification, shadowed-apk
                     filtering in get_update_commands, and the retry-once
                     update loop

Paths are modelled as lists of components (PathBuf); maps are association
lists (HashMap iteration order is unspecified in Rust, and all properties
proved here are order-insensitive; uniqueness of keys is an explicit
hypothesis where needed).  Rust panics (unwrap / assert!) are modelled as
`none` / `Except.error` propagation: a panic aborts the whole computation
and yields no result.
-/

set_option autoImplicit false

namespace Adevice

/-- A device- or host-relative path, as its list of components
    (PathBuf in the source). -/
abbrev FsPath := List String

/-- FileType from fingerprint.rs. -/
inductive FileType where
  | File
  | Symlink
  | Directory
  deriving DecidableEq, Repr

/-- FileMetadata from fingerprint.rs: file kind, symlink target or "",
    sha256 hex digest of contents or "". -/
structure FileMetadata where
  file_type : FileType
  symlink : String
  digest : String
  deriving DecidableEq, Repr

/-- A fingerprint map: HashMap of PathBuf to FileMetadata, as an
    association list. -/
abbrev FpMap := List (FsPath × FileMetadata)

/-- First-match association-list lookup (HashMap::get). -/
def alookup {α β : Type} [DecidableEq α] : List (α × β) → α → Option β
  | [], _ => none
  | (k, v) :: t, p => if k = p then some v else alookup t p

/-- The keys of an association list are pairwise distinct
    (always true of a HashMap). -/
def NodupKeys {α β : Type} (m : List (α × β)) : Prop :=
  (m.map Prod.fst).Nodup

instance {α β : Type} [DecidableEq α] (m : List (α × β)) : Decidable (NodupKeys m) := by
  unfold NodupKeys; infer_instance

/-- Diffs from fingerprint.rs: the three output maps of the diff engine. -/
structure Diffs where
  device_needs : FpMap
  device_extra : FpMap
  device_diffs : FpMap
  deriving DecidableEq, Repr

/-- The diff engine, fingerprint.rs lines 59-89: one pass over host files
    (absent on device goes to device_needs, present with different metadata
    goes to device_diffs, present and equal is omitted), one pass over
    device files (absent on host goes to device_extra). -/
def diff (host_files device_files : FpMap) : Diffs where
  device_diffs := host_files.filterMap fun e =>
    match alookup device_files e.1 with
    | some device_metadata => if device_metadata ≠ e.2 then some e else none
    | none => none
  device_needs := host_files.filterMap fun e =>
    match alookup device_files e.1 with
    | some _ => none
    | none => some e
  device_extra := device_files.filter fun e => (alookup host_files e.1).isNone

/-- DiffMode referenced by adevice.rs.  Modelled from the spec: its
    definition is absent from the source snapshot (only call sites remain);
    §4.2 keeps it as a policy switch between strict comparison and
    kind/digest/symlink-target-only comparison. -/
inductive DiffMode where
  | UsePermissions
  | IgnorePermissions
  deriving DecidableEq, Repr

/-- Modelled from the spec: is_metadata_diff is absent from the source
    snapshot (only its call sites in adevice.rs remain).  Per §4.2,
    equality under IgnorePermissions compares kind, digest and symlink
    target only; the FileMetadata record of this snapshot carries exactly
    those fields and no permission bits, so both modes compare full record
    equality. -/
def is_metadata_diff (device_metadata host_metadata : FileMetadata)
    (_mode : DiffMode) : Bool :=
  device_metadata ≠ host_metadata

/-- The three-argument diff called by get_update_commands.  Modelled from
    the spec (§4.2): same structure as `diff`, with inequality replaced by
    is_metadata_diff under the active mode. -/
def diffM (host_files device_files : FpMap) (mode : DiffMode) : Diffs where
  device_diffs := host_files.filterMap fun e =>
    match alookup device_files e.1 with
    | some device_metadata =>
        if is_metadata_diff device_metadata e.2 mode then some e else none
    | none => none
  device_needs := host_files.filterMap fun e =>
    match alookup device_files e.1 with
    | some _ => none
    | none => some e
  device_extra := device_files.filter fun e => (alookup host_files e.1).isNone

/-! ## commands.rs: adb command composition -/

/-- AdbAction from commands.rs. -/
inductive AdbAction where
  | Mkdir
  | Push (host_path : String)
  | Symlink (target : String)
  | DeleteFile
  | DeleteDir
  deriving DecidableEq, Repr

/-- Join character lists with a separator character (String::join). -/
def sepJoin (sep : Char) : List (List Char) → List Char
  | [] => []
  | [x] => x
  | x :: y :: rest => x ++ sep :: sepJoin sep (y :: rest)

/-- Split a character list at a separator character. -/
def splitChars (sep : Char) : List Char → List (List Char)
  | [] => [[]]
  | c :: rest =>
    let r := splitChars sep rest
    if c = sep then [] :: r
    else match r with
      | [] => [[c]]
      | x :: xs => (c :: x) :: xs

/-- split_string from commands.rs: split on spaces into a Vec of Strings. -/
def split_string (s : String) : List String :=
  (splitChars ' ' s.data).map String.mk

/-- Render a component path the way PathBuf displays it: components joined
    with the separator. -/
def pathChars (p : FsPath) : List Char :=
  sepJoin '/' (p.map String.data)

/-- String form of a path (into_os_string().into_string()). -/
def pathString (p : FsPath) : String :=
  String.mk (pathChars p)

/-- command_args from commands.rs lines 39-65: the argv passed to adb for
    each action. -/
def command_args (action : AdbAction) (file_path : FsPath) : List String :=
  let path_str := pathString file_path
  let add_cmd_and_path := fun s => split_string s ++ [path_str]
  let add_cmd_and_paths := fun s (path : String) => split_string s ++ [path, path_str]
  match action with
  | AdbAction.Mkdir => add_cmd_and_path "shell mkdir -p"
  | AdbAction.Push host_path => add_cmd_and_paths "push" host_path
  | AdbAction.Symlink target => add_cmd_and_paths "shell ln -sf" target
  | AdbAction.DeleteFile => add_cmd_and_path "shell rm"
  | AdbAction.DeleteDir => add_cmd_and_path "shell rm -rf"

/-- Commands from commands.rs: upserts and deletes, each a map from device
    path to the adb argv for it. -/
structure Commands where
  upserts : List (FsPath × List String)
  deletes : List (FsPath × List String)
  deriving DecidableEq, Repr

/-- PathBuf::join of a relative path onto product_out. -/
def pathJoin (product_out file_path : FsPath) : FsPath :=
  product_out ++ file_path

/-- compose from commands.rs lines 75-115: upserts from
    device_needs and device_diffs (Push for files with the absolute host
    path, Symlink with the recorded target, Mkdir for directories), deletes
    from device_extra (rm for files and symlinks, rm -rf for directories). -/
def compose (diffs : Diffs) (product_out : FsPath) : Commands where
  upserts := (diffs.device_needs ++ diffs.device_diffs).map fun e =>
    let host_path := pathString (pathJoin product_out e.1)
    (e.1, match e.2.file_type with
      | FileType.File => command_args (AdbAction.Push host_path) e.1
      | FileType.Symlink => command_args (AdbAction.Symlink e.2.symlink) e.1
      | FileType.Directory => command_args AdbAction.Mkdir e.1)
  deletes := diffs.device_extra.map fun e =>
    (e.1, match e.2.file_type with
      | FileType.File | FileType.Symlink => command_args AdbAction.DeleteFile e.1
      | FileType.Directory => command_args AdbAction.DeleteDir e.1)

/-! ## restart_chooser.rs: per-file restart classification -/

/-- RestartType from restart_chooser.rs. -/
inductive RestartType where
  | Reboot
  | SoftRestart
  | None
  deriving DecidableEq, Repr

/-- Module from restart_chooser.rs.  The source field named after the
    module-info "class" key is rendered here as `classes` (the word is a
    Lean keyword). -/
structure Module where
  classes : List String
  installed : List String
  deriving DecidableEq, Repr

/-- The file name of a path string: the last non-empty slash-separated
    segment (Path::file_name; the dot-segment normalization of the Rust
    standard library is not modelled). -/
def fileNameChars (s : String) : List Char :=
  (((splitChars '/' s.data).filter fun seg => seg ≠ []).getLast?).getD []

/-- Path::extension().and_then(OsStr::to_str).unwrap_or(""): the part of
    the file name after its last dot, or "" when there is no dot or when
    the file name is a bare dotfile (leading dot and no other dot). -/
def extensionOf (filename : String) : String :=
  match splitChars '.' (fileNameChars filename) with
  | [] => ""
  | [_] => ""
  | [[], _] => ""
  | segs => String.mk ((segs.getLast?).getD [])

/-- SOFT_RESTART_FILE_EXTS from restart_chooser.rs. -/
def SOFT_RESTART_FILE_EXTS : List String := ["art", "oat", "vdex"]

/-- can_soft_restart_based_on_filename from restart_chooser.rs. -/
def can_soft_restart_based_on_filename (filename : String) : Bool :=
  SOFT_RESTART_FILE_EXTS.contains (extensionOf filename)

/-- REBOOTS_FILE_EXTS from restart_chooser.rs. -/
def REBOOTS_FILE_EXTS : List String := ["rc"]

/-- should_force_reboot_on_filename from restart_chooser.rs. -/
def should_force_reboot_on_filename (filename : String) : Bool :=
  REBOOTS_FILE_EXTS.contains (extensionOf filename)

/-- SOFT_RESET_GROUP from restart_chooser.rs. -/
def SOFT_RESET_GROUP : List String :=
  ["APPS", "EXECUTABLES", "JAVA_LIBRARIES", "SHARED_LIBRARIES"]

/-- restart_type_for_classes from restart_chooser.rs lines 100-107: the
    loop returns Reboot at the first class outside SOFT_RESET_GROUP, else
    SoftRestart. -/
def restart_type_for_classes (classes : List String) : RestartType :=
  if classes.any (fun c => !(SOFT_RESET_GROUP.contains c)) then RestartType.Reboot
  else RestartType.SoftRestart

/-- One attempted match of the PATH_MATCHER regex
    /target/product/[^\x2f]+/(.+)$ anchored at the head of the character
    list: the literal, a non-empty slash-free segment, a slash, then a
    non-empty capture running to the end. -/
def stripMatchAt (l : List Char) : Option (List Char) :=
  if l.take 16 = "/target/product/".data then
    let after := l.drop 16
    let seg := after.takeWhile fun c => c ≠ '/'
    match after.drop seg.length with
    | '/' :: cap => if seg = [] ∨ cap = [] then none else some cap
    | _ => none
  else none

/-- Leftmost-match regex search: try each start position left to right. -/
def stripProductSearch : List Char → Option (List Char)
  | [] => none
  | c :: rest =>
    match stripMatchAt (c :: rest) with
    | some cap => some cap
    | none => stripProductSearch rest

/-- strip_product_prefix from restart_chooser.rs (renamed; captures the
    device-relative part after out/target/product/PRODUCT/). -/
def strip_product_out (path : String) : Option String :=
  (stripProductSearch path.data).map String.mk

/-- The loop body of restart_type_for_all_installed_files for one module:
    skip installed files outside the product tree, force Reboot for
    deny-listed extensions, SoftRestart for allow-listed extensions, else
    fall back to the module-class rule. -/
def moduleEntries (m : Module) : List (String × RestartType) :=
  m.installed.filterMap fun installed_file =>
    let device_path := (strip_product_out installed_file).getD ""
    if device_path = "" then none
    else if should_force_reboot_on_filename device_path then
      some (device_path, RestartType.Reboot)
    else if can_soft_restart_based_on_filename device_path then
      some (device_path, RestartType.SoftRestart)
    else some (device_path, restart_type_for_classes m.classes)

/-- restart_type_for_all_installed_files from restart_chooser.rs lines
    41-71, as the list of (device path, restart type) pairs inserted into
    the chooser map. -/
def restart_type_for_all_installed_files (info : List Module) :
    List (String × RestartType) :=
  (info.map moduleEntries).flatten

/-- restart_type from commands.rs lines 167-200: scan every installed
    file, remember whether any needs a reboot or a soft restart, and
    combine (missing chooser entries contribute nothing). -/
def restart_type (restart_types : List (String × RestartType))
    (installed_file_paths : List String) : RestartType :=
  let flags := installed_file_paths.foldl
    (fun (acc : Bool × Bool) installed_file =>
      match alookup restart_types installed_file with
      | some RestartType.Reboot => (acc.1, true)
      | some RestartType.SoftRestart => (true, acc.2)
      | some RestartType.None => acc
      | none => acc)
    (false, false)
  if flags.2 then RestartType.Reboot
  else if flags.1 then RestartType.SoftRestart
  else RestartType.None

/-- Rank of a restart decision in the None < SoftRestart < Reboot order
    (spec §3, RestartDecision lattice). -/
def rtRank : RestartType → Nat
  | RestartType.None => 0
  | RestartType.SoftRestart => 1
  | RestartType.Reboot => 2

/-- Maximum of two restart decisions under the dominance order. -/
def rtMax (a b : RestartType) : RestartType :=
  if rtRank a ≥ rtRank b then a else b

/-- The per-file decision of the chooser for a path: the stored restart
    type, or None when the chooser knows nothing about the file. -/
def rtDecision (restart_types : List (String × RestartType)) (f : String) :
    RestartType :=
  (alookup restart_types f).getD RestartType.None

/-! ## adevice.rs: classification and the update orchestrator -/

/-- PushState from adevice.rs. -/
inductive PushState where
  | Push
  | UpToDate
  | TrackOrClean
  | TrackAndBuildOrClean
  | TrackOrMakeClean
  | UntrackOrBuild
  | ApkInstalled
  deriving DecidableEq, Repr

/-- installed_apk_action from adevice.rs lines 463-477: non-apk files are
    pushed; an apk already installed in /data shadows the system copy.
    The `installed` oracle models the is_apk_installed query (an aapt2
    subprocess plus the device package set, external IO). -/
def installed_apk_action (file : FsPath) (installed : FsPath → Bool) :
    PushState :=
  if extensionOf (pathString file) ≠ "apk" then PushState.Push
  else if installed file then PushState.ApkInstalled
  else PushState.Push

/-- The per-file branch structure of collect_status_per_file, adevice.rs
    lines 549-598, as a function of tracked / on_host / on_device, the
    metadata-difference test and the result of installed_apk_action.  The
    two assert! statements are modelled as `none` (a panic, not a default
    state). -/
def classify_file (tracked on_host on_device : Bool)
    (metadata_diff : Bool) (apk_action : PushState) : Option PushState :=
  if tracked then
    if on_device && on_host then
      if metadata_diff then some apk_action else some PushState.UpToDate
    else if !on_host then some PushState.UntrackOrBuild
    else if !on_device && on_host then some PushState.Push
    else none
  else
    if on_device && on_host then some PushState.TrackOrClean
    else if on_device && !on_host then some PushState.TrackAndBuildOrClean
    else if !on_device && on_host then some PushState.TrackOrMakeClean
    else none

/-- Ancestor chains of a reversed component list (dropping the last
    component of a path is dropping the head of its reversal, so this
    recursion is structural). -/
def ancestorsRev : List String → List FsPath
  | [] => [[]]
  | c :: rest => (c :: rest) :: ancestorsRev rest

/-- Path::ancestors for a relative path: the path, each parent in turn,
    and finally the empty path. -/
def ancestors (p : FsPath) : List FsPath :=
  (ancestorsRev p.reverse).map List.reverse

/-- parents from adevice.rs lines 637-643: ancestors of the path up to,
    and not including, the first ancestor that is a partition root. -/
def parents (file_path : FsPath) (partitions : List FsPath) : List FsPath :=
  (ancestors file_path).takeWhile fun p => ¬(p ∈ partitions)

/-- The tracked set built at the top of get_update_commands: the ninja
    installed files, the implicit parent directories up to the partition
    roots, and the partition roots themselves. -/
def trackedSetOf (ninja_installed_files : List FsPath)
    (partitions : List FsPath) : List FsPath :=
  ninja_installed_files ++
    ((ninja_installed_files.map fun p => parents p partitions).flatten
      ++ partitions)

/-- The per-path state computed by the body of collect_status_per_file:
    presence on host and device, tracked-set membership, the metadata
    comparison when both sides are present, and the apk-shadow check. -/
def file_push_state (tracked_set : List FsPath) (host_tree device_tree : FpMap)
    (installed : FsPath → Bool) (mode : DiffMode) (f : FsPath) :
    Option PushState :=
  let on_device := (alookup device_tree f).isSome
  let on_host := (alookup host_tree f).isSome
  let tracked := decide (f ∈ tracked_set)
  let metadata_diff :=
    match alookup device_tree f, alookup host_tree f with
    | some dm, some hm => is_metadata_diff dm hm mode
    | _, _ => false
  classify_file tracked on_host on_device metadata_diff
    (installed_apk_action f installed)

/-- Drop paths already seen, keeping first occurrences. -/
def dedupAux (seen : List FsPath) : List FsPath → List FsPath
  | [] => []
  | p :: rest =>
    if p ∈ seen then dedupAux seen rest
    else p :: dedupAux (p :: seen) rest

/-- Drop duplicate paths, keeping the first occurrence (the source sorts
    the concatenated key lists and dedups; only the resulting set
    matters). -/
def dedupPaths (l : List FsPath) : List FsPath :=
  dedupAux [] l

/-- collect_status_per_file from adevice.rs lines 528-603: one state per
    distinct path appearing on the host, on the device or in the tracked
    set; a panic in any per-file classification aborts the whole map. -/
def collect_status_per_file (tracked_set : List FsPath)
    (host_tree device_tree : FpMap) (installed : FsPath → Bool)
    (mode : DiffMode) : Option (List (FsPath × PushState)) :=
  let all_files := dedupPaths
    (host_tree.map Prod.fst ++ device_tree.map Prod.fst ++ tracked_set)
  all_files.mapM fun f =>
    (file_push_state tracked_set host_tree device_tree installed mode f).map
      fun s => (f, s)

/-- get_update_commands from adevice.rs lines 292-365: build the tracked
    set, classify every path, collect the apk-shadowed paths, restrict the
    host tree to tracked non-shadowed entries, diff against the device and
    compose the adb commands.  (The needs_building set only feeds a printed
    warning and is not modelled.) -/
def get_update_commands (device_tree host_tree : FpMap)
    (ninja_installed_files : List FsPath) (product_out : FsPath)
    (installed : FsPath → Bool) (mode : DiffMode)
    (partitions : List FsPath) : Option Commands :=
  let tracked_set := trackedSetOf ninja_installed_files partitions
  match collect_status_per_file tracked_set host_tree device_tree installed
      mode with
  | none => none
  | some status_per_file =>
    let shadowing_apks :=
      (status_per_file.filter fun e => e.2 = PushState.ApkInstalled).map
        Prod.fst
    let filtered_host_set := host_tree.filter fun e =>
      decide (e.1 ∈ tracked_set) && !(decide (e.1 ∈ shadowing_apks))
    let filtered_changes := diffM filtered_host_set device_tree mode
    some (compose filtered_changes product_out)

/-- The update retry loop of adevice(), adevice.rs lines 251-275: a
    bounded `for retry in 0..=1` that breaks on success, bails out on an
    error in the last iteration, and otherwise runs prep_after_flash (its
    failure propagating through `?`) before retrying.  Returns the overall
    result, the number of update attempts and the number of recoveries. -/
def updateLoop (attempt : Nat → Except String Unit)
    (prep : Unit → Except String Unit) :
    List Nat → Nat → Nat → Except String Unit × Nat × Nat
  | [], attempts, preps => (Except.ok (), attempts, preps)
  | retry :: rest, attempts, preps =>
    match attempt retry with
    | Except.ok _ => (Except.ok (), attempts + 1, preps)
    | Except.error problem =>
      if retry = 1 then
        (Except.error ("Not expecting errors after a retry. Error:" ++
          problem), attempts + 1, preps)
      else
        match prep () with
        | Except.error e => (Except.error e, attempts + 1, preps + 1)
        | Except.ok _ => updateLoop attempt prep rest (attempts + 1) (preps + 1)

/-- The orchestrator's apply-with-retry: two iterations, indices 0 and 1. -/
def adeviceUpdateWithRetry (attempt : Nat → Except String Unit)
    (prep : Unit → Except String Unit) : Except String Unit × Nat × Nat :=
  updateLoop attempt prep [0, 1] 0 0

/-! ## device.rs: the command ordering comparator -/

/-- The AdbCommand struct of the execution layer.  Modelled from the spec
    (§4.5-§4.6): the struct itself and its helper methods are absent from
    the source snapshot, which only retains their call sites in device.rs;
    it pairs the action with the device path, and its args are the
    command_args of commands.rs. -/
structure AdbCmd where
  action : AdbAction
  device_path : FsPath
  deriving DecidableEq, Repr

/-- Whether a command is a mkdir. -/
def AdbCmd.is_mkdir (c : AdbCmd) : Bool :=
  match c.action with
  | AdbAction.Mkdir => true
  | _ => false

/-- Whether a command is a delete (rm or rm -rf). -/
def AdbCmd.is_rm (c : AdbCmd) : Bool :=
  match c.action with
  | AdbAction.DeleteFile => true
  | AdbAction.DeleteDir => true
  | _ => false

/-- The argv of a command. -/
def AdbCmd.args (c : AdbCmd) : List String :=
  command_args c.action c.device_path

/-- The characters of args().join(" "), the string the comparator
    compares. -/
def AdbCmd.joinedArgs (c : AdbCmd) : List Char :=
  sepJoin ' ' (c.args.map String.data)

/-- Byte-wise (code-point-wise) comparison of character lists: Rust String
    Ord (UTF-8 byte order coincides with scalar-value order). -/
def compareChars : List Char → List Char → Ordering
  | [], [] => Ordering.eq
  | [], _ :: _ => Ordering.lt
  | _ :: _, [] => Ordering.gt
  | a :: as, b :: bs =>
    if a < b then Ordering.lt
    else if b < a then Ordering.gt
    else compareChars as bs

/-- Component-wise path comparison: Rust Path Ord compares the component
    sequences, each component byte-wise. -/
def comparePath : FsPath → FsPath → Ordering
  | [], [] => Ordering.eq
  | [], _ :: _ => Ordering.lt
  | _ :: _, [] => Ordering.gt
  | a :: as, b :: bs =>
    match compareChars a.data b.data with
    | Ordering.eq => comparePath as bs
    | o => o

/-- mkdir_comes_first_rm_dfs from device.rs lines 396-429: mkdirs first
    (ordered by device path), then deletes in reverse order of their full
    command strings, then everything else ordered by command string. -/
def mkdir_comes_first_rm_dfs (a b : AdbCmd) : Ordering :=
  if !a.is_mkdir && !b.is_mkdir then
    let a_cmd := a.joinedArgs
    let b_cmd := b.joinedArgs
    if a.is_rm && b.is_rm then compareChars b_cmd a_cmd
    else if a.is_rm then Ordering.lt
    else if b.is_rm then Ordering.gt
    else compareChars a_cmd b_cmd
  else if a.is_mkdir && b.is_mkdir then comparePath a.device_path b.device_path
  else if a.is_mkdir then Ordering.lt
  else if b.is_mkdir then Ordering.gt
  else Ordering.eq

/-- A list is sorted by the comparator when no earlier element compares
    greater than a later one. -/
def SortedByCmp (l : List AdbCmd) : Prop :=
  l.Pairwise fun a b => mkdir_comes_first_rm_dfs a b ≠ Ordering.gt

instance (l : List AdbCmd) : Decidable (SortedByCmp l) := by
  unfold SortedByCmp; infer_instance

/-- One path is a strict ancestor of another when the second extends the
    first by at least one component. -/
def StrictAncestor (d x : FsPath) : Prop :=
  ∃ r : FsPath, r ≠ [] ∧ x = d ++ r

instance (d x : FsPath) : Decidable (StrictAncestor d x) := by
  refine decidable_of_iff (x.take d.length = d ∧ d.length < x.length) ?_
  constructor
  · rintro ⟨htake, hlen⟩
    refine ⟨x.drop d.length, ?_, ?_⟩
    · intro hnil
      have := congrArg List.length hnil
      simp [List.length_drop] at this
      omega
    · conv_lhs => rw [← List.take_append_drop d.length x, htake]
  · rintro ⟨r, hr, rfl⟩
    have hrlen : 0 < r.length := List.length_pos.mpr hr
    constructor
    · simp
    · simp; omega

/-- A delete target is well formed when its rendered path starts with a
    character above the ASCII dash (true of real device paths, which begin
    with a partition name). -/
def GoodRmPath (p : FsPath) : Prop :=
  match pathChars p with
  | [] => False
  | c :: _ => ('-' : Char) < c

instance (p : FsPath) : Decidable (GoodRmPath p) := by
  unfold GoodRmPath
  cases pathChars p <;> infer_instance

/-! ## fingerprint.rs: host fingerprinting with IO modelled explicitly -/

/-- What symlink_metadata plus read_link / content read observe for one
    filesystem object: a directory, a symlink with its raw target, a
    regular file with its bytes, or a special file (device node, fifo,
    socket). -/
inductive HostEntry where
  | dir
  | symlink (target : String)
  | file (contents : List UInt8)
  | special
  deriving DecidableEq, Repr

/-- The host filesystem as seen by fingerprint_partitions: walkdir
    enumerates entries under a root (each enumeration step can fail), and
    reading the metadata or contents of a path can fail. -/
structure HostFilesystem where
  walkdir : FsPath → List (Except String FsPath)
  readEntry : FsPath → Except String HostEntry

/-- is_special_file from fingerprint.rs lines 161-169. -/
def isSpecial : HostEntry → Bool
  | HostEntry.special => true
  | _ => false

/-- One lowercase hex digit. -/
def hexDigit (n : Nat) : Char :=
  if n < 10 then Char.ofNat (48 + n) else Char.ofNat (87 + n)

/-- Lowercase hex encoding of a byte list (hex::encode). -/
def hexEncode (bytes : List UInt8) : String :=
  String.mk (bytes.flatMap fun b => [hexDigit (b.toNat / 16), hexDigit (b.toNat % 16)])

/-- Modelled from the spec: the 256-bit cryptographic digest (SHA-256 from
    the external ring crate, not part of this repository).  Only its
    deterministic 32-byte output shape matters for the properties proved
    here, so the compression function is a simple executable mix. -/
def sha256_model (input : List UInt8) : List UInt8 :=
  input.foldl
    (fun state b =>
      match state with
      | [] => []
      | h :: t => t ++ [h * 33 + b + 1])
    ((List.range 32).map fun i => UInt8.ofNat (101 * i + 7))

/-- compute_digest from fingerprint.rs lines 172-187: hash the contents
    and hex-encode (the fixed-size read loop is observationally the digest
    of the whole byte stream). -/
def compute_digest (contents : List UInt8) : String :=
  hexEncode (sha256_model contents)

/-- fingerprint_file from fingerprint.rs lines 129-156: stat without
    following links, then build the FileMetadata; any read failure is the
    whole call's failure.  A special file reaches the regular-file branch
    where reading it fails. -/
def fingerprint_file (fs : HostFilesystem) (file_path : FsPath) :
    Except String FileMetadata :=
  match fs.readEntry file_path with
  | Except.error e => Except.error e
  | Except.ok HostEntry.dir =>
    Except.ok { file_type := FileType.Directory, symlink := "", digest := "" }
  | Except.ok (HostEntry.symlink target) =>
    Except.ok { file_type := FileType.Symlink, symlink := target, digest := "" }
  | Except.ok (HostEntry.file contents) =>
    Except.ok { file_type := FileType.File, symlink := "",
                digest := compute_digest contents }
  | Except.ok HostEntry.special => Except.error "unreadable special file"

/-- Collect a list of fallible results, failing at the first error (the
    unwrap calls of the source: a panic aborts the whole operation). -/
def collectE {α : Type} : List (Except String α) → Except String (List α)
  | [] => Except.ok []
  | x :: rest =>
    match x with
    | Except.error e => Except.error e
    | Except.ok a =>
      match collectE rest with
      | Except.error e => Except.error e
      | Except.ok as => Except.ok (a :: as)

/-- Path::strip_prefix followed by unwrap: drop the partition root from a
    walked path. -/
def stripRoot (root p : FsPath) : Except String FsPath :=
  if root.isPrefixOf p then Except.ok (p.drop root.length)
  else Except.error "strip root failed"

/-- The full enumeration performed by fingerprint_partitions: every
    walkdir result under every partition. -/
def walkedFiles (fs : HostFilesystem) (partition_root : FsPath)
    (partition_names : List FsPath) : List (Except String FsPath) :=
  (partition_names.map fun p => fs.walkdir (partition_root ++ p)).flatten

/-- fingerprint_partitions from fingerprint.rs lines 99-127: enumerate all
    entries (each enumeration error panics), stat each to filter special
    files (each stat error panics), then fingerprint each kept file keyed
    by its root-relative path (each failure panics).  Panics are modelled
    as errors of the whole call, so no partial map is ever produced. -/
def fingerprint_partitions (fs : HostFilesystem) (partition_root : FsPath)
    (partition_names : List FsPath) :
    Except String (List (FsPath × FileMetadata)) :=
  match collectE (walkedFiles fs partition_root partition_names) with
  | Except.error e => Except.error e
  | Except.ok filenames =>
    match collectE (filenames.map fun f =>
        match fs.readEntry f with
        | Except.error e => Except.error e
        | Except.ok entry => Except.ok (f, entry)) with
    | Except.error e => Except.error e
    | Except.ok entries =>
      let kept := entries.filter fun fe => !(isSpecial fe.2)
      collectE (kept.map fun fe =>
        match stripRoot partition_root fe.1 with
        | Except.error e => Except.error e
        | Except.ok rel =>
          match fingerprint_file fs fe.1 with
          | Except.error e => Except.error e
          | Except.ok metadata => Except.ok (rel, metadata))

/-! ## Association-list lookup lemmas -/

theorem alookup_eq_none {α β : Type} [DecidableEq α] (m : List (α × β)) (p : α) :
    alookup m p = none ↔ p ∉ m.map Prod.fst := by
  induction m with
  | nil => simp [alookup]
  | cons e t ih =>
    obtain ⟨k, v⟩ := e
    by_cases hk : k = p
    · subst hk
      simp [alookup]
    · simp [alookup, hk, ih, Ne.symm hk]

theorem mem_of_alookup_eq_some {α β : Type} [DecidableEq α]
    (m : List (α × β)) (p : α) (v : β) (h : alookup m p = some v) :
    (p, v) ∈ m := by
  induction m with
  | nil => simp [alookup] at h
  | cons e t ih =>
    obtain ⟨k, w⟩ := e
    by_cases hk : k = p
    · subst hk
      simp [alookup] at h
      simp [h]
    · simp [alookup, hk] at h
      exact List.mem_cons_of_mem _ (ih h)

theorem nodupKeys_cons {α β : Type} (k : α) (v : β) (t : List (α × β))
    (h : NodupKeys ((k, v) :: t)) :
    NodupKeys t ∧ k ∉ t.map Prod.fst := by
  unfold NodupKeys at *
  simp only [List.map_cons, List.nodup_cons] at h
  exact ⟨h.2, h.1⟩

theorem alookup_filterMap_id {α β : Type} [DecidableEq α]
    (f : α × β → Option (α × β)) (hf : ∀ e, f e = some e ∨ f e = none)
    (m : List (α × β)) (hn : NodupKeys m) (p : α) :
    alookup (m.filterMap f) p =
      (alookup m p).bind fun v => (f (p, v)).map Prod.snd := by
  induction m with
  | nil => simp [alookup]
  | cons e t ih =>
    obtain ⟨k, w⟩ := e
    obtain ⟨hnt, hkt⟩ := nodupKeys_cons k w t hn
    rcases hf (k, w) with hsome | hnone
    · rw [show List.filterMap f ((k, w) :: t) = (k, w) :: List.filterMap f t by
        simp [List.filterMap_cons, hsome]]
      by_cases hk : k = p
      · subst hk
        simp [alookup, hsome]
      · simp [alookup, hk, ih hnt]
    · rw [show List.filterMap f ((k, w) :: t) = List.filterMap f t by
        simp [List.filterMap_cons, hnone]]
      by_cases hk : k = p
      · subst hk
        have hnone2 : alookup (t.filterMap f) k = none := by
          rw [alookup_eq_none]
          intro hmem
          simp only [List.mem_map] at hmem
          obtain ⟨e2, he2, hfst⟩ := hmem
          obtain ⟨e3, he3, hfe3⟩ := List.mem_filterMap.mp he2
          rcases hf e3 with h3 | h3
          · rw [h3] at hfe3
            have he : e3 = e2 := Option.some.inj hfe3
            subst he
            exact hkt (List.mem_map.mpr ⟨e3, he3, hfst⟩)
          · rw [h3] at hfe3
            exact Option.noConfusion hfe3
        simp [alookup, hnone2, hnone]
      · simp [alookup, hk, ih hnt]

theorem filter_as_filterMap {α : Type} (pred : α → Bool) (l : List α) :
    l.filter pred = l.filterMap fun a => if pred a then some a else none := by
  induction l with
  | nil => rfl
  | cons a t ih =>
    by_cases hp : pred a <;>
      simp [List.filter_cons, List.filterMap_cons, hp, ih]

theorem alookup_append {α β : Type} [DecidableEq α]
    (m1 m2 : List (α × β)) (p : α) :
    alookup (m1 ++ m2) p =
      match alookup m1 p with
      | some v => some v
      | none => alookup m2 p := by
  induction m1 with
  | nil => simp [alookup]
  | cons e t ih =>
    obtain ⟨k, w⟩ := e
    by_cases hk : k = p
    · subst hk
      simp [alookup]
    · simp [alookup, hk, ih]

theorem alookup_map_values {α β γ : Type} [DecidableEq α]
    (g : α → β → γ) (m : List (α × β)) (p : α) :
    alookup (m.map fun e => (e.1, g e.1 e.2)) p = (alookup m p).map (g p) := by
  induction m with
  | nil => simp [alookup]
  | cons e t ih =>
    obtain ⟨k, w⟩ := e
    by_cases hk : k = p
    · subst hk
      simp [alookup]
    · simp [alookup, hk, ih]

/-! ## Lookup characterizations of the diff engine -/

theorem alookup_diff_needs (host_files device_files : FpMap)
    (hh : NodupKeys host_files) (p : FsPath) :
    alookup (diff host_files device_files).device_needs p =
      match alookup host_files p, alookup device_files p with
      | some m, none => some m
      | _, _ => none := by
  have hf : ∀ e : FsPath × FileMetadata,
      (match alookup device_files e.1 with
        | some _ => none
        | none => some e) = some e ∨
      (match alookup device_files e.1 with
        | some _ => none
        | none => some e) = none := by
    intro e
    cases alookup device_files e.1 <;> simp
  rw [show (diff host_files device_files).device_needs =
      host_files.filterMap fun e =>
        match alookup device_files e.1 with
        | some _ => none
        | none => some e from rfl,
    alookup_filterMap_id _ hf host_files hh p]
  cases alookup host_files p <;> cases hd : alookup device_files p <;>
    simp [hd]

theorem alookup_diff_diffs (host_files device_files : FpMap)
    (hh : NodupKeys host_files) (p : FsPath) :
    alookup (diff host_files device_files).device_diffs p =
      match alookup host_files p, alookup device_files p with
      | some hm, some dm => if dm ≠ hm then some hm else none
      | _, _ => none := by
  have hf : ∀ e : FsPath × FileMetadata,
      (match alookup device_files e.1 with
        | some dm => if dm ≠ e.2 then some e else none
        | none => none) = some e ∨
      (match alookup device_files e.1 with
        | some dm => if dm ≠ e.2 then some e else none
        | none => none) = none := by
    intro e
    cases alookup device_files e.1 with
    | none => simp
    | some dm =>
      by_cases hne : dm ≠ e.2 <;> simp [hne]
  rw [show (diff host_files device_files).device_diffs =
      host_files.filterMap fun e =>
        match alookup device_files e.1 with
        | some dm => if dm ≠ e.2 then some e else none
        | none => none from rfl,
    alookup_filterMap_id _ hf host_files hh p]
  cases alookup host_files p with
  | none => simp
  | some hm =>
    cases hd : alookup device_files p with
    | none => simp [hd]
    | some dm =>
      by_cases hne : dm ≠ hm <;> simp [hd, hne]

theorem alookup_diff_extra (host_files device_files : FpMap)
    (hd : NodupKeys device_files) (p : FsPath) :
    alookup (diff host_files device_files).device_extra p =
      match alookup device_files p, alookup host_files p with
      | some m, none => some m
      | _, _ => none := by
  have hfilter : (diff host_files device_files).device_extra =
      device_files.filterMap fun e =>
        if (alookup host_files e.1).isNone then some e else none := by
    rw [show (diff host_files device_files).device_extra =
        device_files.filter fun e => (alookup host_files e.1).isNone from rfl]
    rw [filter_as_filterMap]
  have hf : ∀ e : FsPath × FileMetadata,
      (if (alookup host_files e.1).isNone then some e else none) = some e ∨
      (if (alookup host_files e.1).isNone then some e else none) = none := by
    intro e
    by_cases hc : (alookup host_files e.1).isNone <;> simp [hc]
  rw [hfilter, alookup_filterMap_id _ hf device_files hd p]
  cases alookup device_files p <;> cases hh : alookup host_files p <;>
    simp [hh]

theorem alookup_map_pair {α β γ : Type} [DecidableEq α]
    (F : α × β → γ) (m : List (α × β)) (p : α) :
    alookup (m.map fun e => (e.1, F e)) p =
      (alookup m p).map fun v => F (p, v) := by
  induction m with
  | nil => simp [alookup]
  | cons e t ih =>
    obtain ⟨k, w⟩ := e
    by_cases hk : k = p
    · subst hk
      simp [alookup]
    · simp [alookup, hk, ih]

/-- C1: for every pair of fingerprint maps, every path in the union of
    their key sets falls under exactly one of the four diff outcomes: in
    device_needs iff present on host and absent from device, in
    device_diffs iff present on both with unequal metadata, in
    device_extra iff present on device and absent from host, and in none
    of the three maps exactly when present on both with equal metadata; no
    path is in more than one of the three maps. -/
theorem diff_union_exactly_one_outcome
    (host_files device_files : FpMap)
    (hh : NodupKeys host_files) (hd : NodupKeys device_files) (p : FsPath) :
    ((alookup (diff host_files device_files).device_needs p).isSome ↔
      (alookup host_files p).isSome ∧ alookup device_files p = none)
    ∧ ((alookup (diff host_files device_files).device_diffs p).isSome ↔
      ∃ hm dm, alookup host_files p = some hm ∧
        alookup device_files p = some dm ∧ hm ≠ dm)
    ∧ ((alookup (diff host_files device_files).device_extra p).isSome ↔
      (alookup device_files p).isSome ∧ alookup host_files p = none)
    ∧ ¬((alookup (diff host_files device_files).device_needs p).isSome ∧
        (alookup (diff host_files device_files).device_diffs p).isSome)
    ∧ ¬((alookup (diff host_files device_files).device_needs p).isSome ∧
        (alookup (diff host_files device_files).device_extra p).isSome)
    ∧ ¬((alookup (diff host_files device_files).device_diffs p).isSome ∧
        (alookup (diff host_files device_files).device_extra p).isSome)
    ∧ ((alookup host_files p).isSome ∨ (alookup device_files p).isSome →
        ((alookup (diff host_files device_files).device_needs p).isSome ∨
         (alookup (diff host_files device_files).device_diffs p).isSome ∨
         (alookup (diff host_files device_files).device_extra p).isSome) ∨
        ∃ m, alookup host_files p = some m ∧
          alookup device_files p = some m) := by
  rw [alookup_diff_needs host_files device_files hh p,
    alookup_diff_diffs host_files device_files hh p,
    alookup_diff_extra host_files device_files hd p]
  cases h1 : alookup host_files p with
  | none =>
    cases h2 : alookup device_files p with
    | none => simp
    | some dm => simp
  | some hm =>
    cases h2 : alookup device_files p with
    | none => simp
    | some dm =>
      by_cases heq : dm = hm
      · subst heq
        simp
      · simp [heq, Ne.symm heq]

/-- Concrete instantiation of the diff completeness theorem. -/
theorem diff_union_exactly_one_outcome_witness :
    NodupKeys [(["system", "a"],
      FileMetadata.mk FileType.File "" "d1")] ∧
    NodupKeys [(["system", "a"],
      FileMetadata.mk FileType.File "" "d2")] ∧
    (((alookup (diff
        [(["system", "a"], FileMetadata.mk FileType.File "" "d1")]
        [(["system", "a"], FileMetadata.mk FileType.File "" "d2")]
        ).device_needs ["system", "a"]).isSome ↔
      (alookup [(["system", "a"], FileMetadata.mk FileType.File "" "d1")]
        ["system", "a"]).isSome ∧
      alookup [(["system", "a"], FileMetadata.mk FileType.File "" "d2")]
        ["system", "a"] = none)
    ∧ ((alookup (diff
        [(["system", "a"], FileMetadata.mk FileType.File "" "d1")]
        [(["system", "a"], FileMetadata.mk FileType.File "" "d2")]
        ).device_diffs ["system", "a"]).isSome ↔
      ∃ hm dm,
        alookup [(["system", "a"], FileMetadata.mk FileType.File "" "d1")]
          ["system", "a"] = some hm ∧
        alookup [(["system", "a"], FileMetadata.mk FileType.File "" "d2")]
          ["system", "a"] = some dm ∧ hm ≠ dm)
    ∧ ((alookup (diff
        [(["system", "a"], FileMetadata.mk FileType.File "" "d1")]
        [(["system", "a"], FileMetadata.mk FileType.File "" "d2")]
        ).device_extra ["system", "a"]).isSome ↔
      (alookup [(["system", "a"], FileMetadata.mk FileType.File "" "d2")]
        ["system", "a"]).isSome ∧
      alookup [(["system", "a"], FileMetadata.mk FileType.File "" "d1")]
        ["system", "a"] = none)
    ∧ ¬((alookup (diff
        [(["system", "a"], FileMetadata.mk FileType.File "" "d1")]
        [(["system", "a"], FileMetadata.mk FileType.File "" "d2")]
        ).device_needs ["system", "a"]).isSome ∧
        (alookup (diff
        [(["system", "a"], FileMetadata.mk FileType.File "" "d1")]
        [(["system", "a"], FileMetadata.mk FileType.File "" "d2")]
        ).device_diffs ["system", "a"]).isSome)
    ∧ ¬((alookup (diff
        [(["system", "a"], FileMetadata.mk FileType.File "" "d1")]
        [(["system", "a"], FileMetadata.mk FileType.File "" "d2")]
        ).device_needs ["system", "a"]).isSome ∧
        (alookup (diff
        [(["system", "a"], FileMetadata.mk FileType.File "" "d1")]
        [(["system", "a"], FileMetadata.mk FileType.File "" "d2")]
        ).device_extra ["system", "a"]).isSome)
    ∧ ¬((alookup (diff
        [(["system", "a"], FileMetadata.mk FileType.File "" "d1")]
        [(["system", "a"], FileMetadata.mk FileType.File "" "d2")]
        ).device_diffs ["system", "a"]).isSome ∧
        (alookup (diff
        [(["system", "a"], FileMetadata.mk FileType.File "" "d1")]
        [(["system", "a"], FileMetadata.mk FileType.File "" "d2")]
        ).device_extra ["system", "a"]).isSome)
    ∧ ((alookup [(["system", "a"], FileMetadata.mk FileType.File "" "d1")]
        ["system", "a"]).isSome ∨
       (alookup [(["system", "a"], FileMetadata.mk FileType.File "" "d2")]
        ["system", "a"]).isSome →
        ((alookup (diff
        [(["system", "a"], FileMetadata.mk FileType.File "" "d1")]
        [(["system", "a"], FileMetadata.mk FileType.File "" "d2")]
        ).device_needs ["system", "a"]).isSome ∨
         (alookup (diff
        [(["system", "a"], FileMetadata.mk FileType.File "" "d1")]
        [(["system", "a"], FileMetadata.mk FileType.File "" "d2")]
        ).device_diffs ["system", "a"]).isSome ∨
         (alookup (diff
        [(["system", "a"], FileMetadata.mk FileType.File "" "d1")]
        [(["system", "a"], FileMetadata.mk FileType.File "" "d2")]
        ).device_extra ["system", "a"]).isSome) ∨
        ∃ m,
          alookup [(["system", "a"], FileMetadata.mk FileType.File "" "d1")]
            ["system", "a"] = some m ∧
          alookup [(["system", "a"], FileMetadata.mk FileType.File "" "d2")]
            ["system", "a"] = some m)) :=
  ⟨by decide, by decide,
    diff_union_exactly_one_outcome
      [(["system", "a"], FileMetadata.mk FileType.File "" "d1")]
      [(["system", "a"], FileMetadata.mk FileType.File "" "d2")]
      (by decide) (by decide) ["system", "a"]⟩

/-- C10: a path placed in device_diffs carries the host-side metadata, and
    compose derives the upsert command for it from that host metadata —
    a Push with the absolute host path for a file, a Symlink with the
    host-recorded target, a Mkdir for a directory. -/
theorem device_diffs_uses_host_metadata
    (host_files device_files : FpMap) (product_out : FsPath)
    (hh : NodupKeys host_files)
    (p : FsPath) (hm dm : FileMetadata)
    (h1 : alookup host_files p = some hm)
    (h2 : alookup device_files p = some dm)
    (hne : hm ≠ dm) :
    alookup (diff host_files device_files).device_diffs p = some hm
    ∧ alookup (compose (diff host_files device_files) product_out).upserts p =
      some (match hm.file_type with
        | FileType.File =>
          command_args (AdbAction.Push (pathString (pathJoin product_out p))) p
        | FileType.Symlink => command_args (AdbAction.Symlink hm.symlink) p
        | FileType.Directory => command_args AdbAction.Mkdir p) := by
  have h_diffs : alookup (diff host_files device_files).device_diffs p =
      some hm := by
    rw [alookup_diff_diffs host_files device_files hh p, h1, h2]
    simp [Ne.symm hne]
  have h_needs : alookup (diff host_files device_files).device_needs p =
      none := by
    rw [alookup_diff_needs host_files device_files hh p, h1, h2]
  refine ⟨h_diffs, ?_⟩
  have hup : (compose (diff host_files device_files) product_out).upserts =
      ((diff host_files device_files).device_needs ++
        (diff host_files device_files).device_diffs).map
        (fun e => (e.1,
          match e.2.file_type with
          | FileType.File =>
            command_args
              (AdbAction.Push (pathString (pathJoin product_out e.1))) e.1
          | FileType.Symlink => command_args (AdbAction.Symlink e.2.symlink) e.1
          | FileType.Directory => command_args AdbAction.Mkdir e.1)) := rfl
  rw [hup]
  simp only [alookup_map_pair]
  rw [alookup_append]
  simp [h_needs, h_diffs]

/-- Concrete instantiation of the host-metadata propagation theorem. -/
theorem device_diffs_uses_host_metadata_witness :
    NodupKeys [(["system", "lnk"],
      FileMetadata.mk FileType.Symlink "tgt" "")] ∧
    (alookup (diff
        [(["system", "lnk"], FileMetadata.mk FileType.Symlink "tgt" "")]
        [(["system", "lnk"], FileMetadata.mk FileType.File "" "x")]
        ).device_diffs ["system", "lnk"] =
      some (FileMetadata.mk FileType.Symlink "tgt" "")
    ∧ alookup (compose (diff
        [(["system", "lnk"], FileMetadata.mk FileType.Symlink "tgt" "")]
        [(["system", "lnk"], FileMetadata.mk FileType.File "" "x")])
        ["out"]).upserts ["system", "lnk"] =
      some (match (FileMetadata.mk FileType.Symlink "tgt" "").file_type with
        | FileType.File =>
          command_args (AdbAction.Push (pathString
            (pathJoin ["out"] ["system", "lnk"]))) ["system", "lnk"]
        | FileType.Symlink =>
          command_args
            (AdbAction.Symlink (FileMetadata.mk FileType.Symlink "tgt" "").symlink)
            ["system", "lnk"]
        | FileType.Directory =>
          command_args AdbAction.Mkdir ["system", "lnk"])) :=
  ⟨by decide,
    device_diffs_uses_host_metadata
      [(["system", "lnk"], FileMetadata.mk FileType.Symlink "tgt" "")]
      [(["system", "lnk"], FileMetadata.mk FileType.File "" "x")]
      ["out"] (by decide) ["system", "lnk"]
      (FileMetadata.mk FileType.Symlink "tgt" "")
      (FileMetadata.mk FileType.File "" "x")
      (by decide) (by decide) (by decide)⟩

/-- C2: the classifier, viewed as a function of (tracked, on_host,
    on_device), yields exactly one PushState on every combination except
    (false, false, false) — UpToDate or the apk action (Push /
    ApkInstalled) when tracked and on both sides, UntrackOrBuild when
    tracked and not on host regardless of device presence, Push when
    tracked and host-only, TrackOrClean / TrackAndBuildOrClean /
    TrackOrMakeClean for the untracked combinations — and
    (false, false, false) hits the assertion (modelled as none) rather
    than any default state. -/
theorem collect_status_classification_exhaustive
    (metadata_diff : Bool) (apk_action : PushState)
    (happly : apk_action = PushState.Push ∨
      apk_action = PushState.ApkInstalled) :
    (classify_file true true true metadata_diff apk_action =
      some (if metadata_diff then apk_action else PushState.UpToDate))
    ∧ (metadata_diff = true →
        classify_file true true true metadata_diff apk_action =
          some PushState.Push ∨
        classify_file true true true metadata_diff apk_action =
          some PushState.ApkInstalled)
    ∧ (∀ on_device : Bool,
        classify_file true false on_device metadata_diff apk_action =
          some PushState.UntrackOrBuild)
    ∧ (classify_file true true false metadata_diff apk_action =
        some PushState.Push)
    ∧ (classify_file false true true metadata_diff apk_action =
        some PushState.TrackOrClean)
    ∧ (classify_file false false true metadata_diff apk_action =
        some PushState.TrackAndBuildOrClean)
    ∧ (classify_file false true false metadata_diff apk_action =
        some PushState.TrackOrMakeClean)
    ∧ (classify_file false false false metadata_diff apk_action = none) := by
  rcases happly with h | h <;> subst h <;> revert metadata_diff <;> decide

/-- Concrete instantiation of the classifier exhaustiveness theorem. -/
theorem collect_status_classification_exhaustive_witness :
    (PushState.ApkInstalled = PushState.Push ∨
      PushState.ApkInstalled = PushState.ApkInstalled)
    ∧ ((classify_file true true true true PushState.ApkInstalled =
        some (if true then PushState.ApkInstalled else PushState.UpToDate))
      ∧ (true = true →
          classify_file true true true true PushState.ApkInstalled =
            some PushState.Push ∨
          classify_file true true true true PushState.ApkInstalled =
            some PushState.ApkInstalled)
      ∧ (∀ on_device : Bool,
          classify_file true false on_device true PushState.ApkInstalled =
            some PushState.UntrackOrBuild)
      ∧ (classify_file true true false true PushState.ApkInstalled =
          some PushState.Push)
      ∧ (classify_file false true true true PushState.ApkInstalled =
          some PushState.TrackOrClean)
      ∧ (classify_file false false true true PushState.ApkInstalled =
          some PushState.TrackAndBuildOrClean)
      ∧ (classify_file false true false true PushState.ApkInstalled =
          some PushState.TrackOrMakeClean)
      ∧ (classify_file false false false true PushState.ApkInstalled =
          none)) :=
  ⟨Or.inr rfl,
    collect_status_classification_exhaustive true PushState.ApkInstalled
      (Or.inr rfl)⟩

/-- C7: when the first update attempt fails and the prepare-after-flash
    recovery succeeds, the orchestrator recovers exactly once and re-runs
    the update exactly once (two attempts in total); a failure of the
    second attempt is surfaced as a fatal error and no third attempt is
    ever made. -/
theorem update_retries_exactly_once
    (attempt : Nat → Except String Unit) (prep : Unit → Except String Unit)
    (e1 : String)
    (h0 : attempt 0 = Except.error e1)
    (hp : prep () = Except.ok ()) :
    (adeviceUpdateWithRetry attempt prep).2.1 = 2
    ∧ (adeviceUpdateWithRetry attempt prep).2.2 = 1
    ∧ (attempt 1 = Except.ok () →
        (adeviceUpdateWithRetry attempt prep).1 = Except.ok ())
    ∧ (∀ e2, attempt 1 = Except.error e2 →
        (adeviceUpdateWithRetry attempt prep).1 =
          Except.error ("Not expecting errors after a retry. Error:" ++ e2)) := by
  cases h1 : attempt 1 with
  | ok u =>
    cases u
    simp [adeviceUpdateWithRetry, updateLoop, h0, hp, h1]
  | error e2 =>
    simp [adeviceUpdateWithRetry, updateLoop, h0, hp, h1]

/-- Concrete instantiation of the retry-once theorem. -/
theorem update_retries_exactly_once_witness :
    ((fun _ : Nat => (Except.error "Read-only file system" : Except String Unit)) 0 =
      Except.error "Read-only file system")
    ∧ ((fun _ : Unit => (Except.ok () : Except String Unit)) () = Except.ok ())
    ∧ ((adeviceUpdateWithRetry
        (fun _ => Except.error "Read-only file system")
        (fun _ => Except.ok ())).2.1 = 2
      ∧ (adeviceUpdateWithRetry
          (fun _ => Except.error "Read-only file system")
          (fun _ => Except.ok ())).2.2 = 1
      ∧ ((fun _ : Nat => (Except.error "Read-only file system" : Except String Unit)) 1 =
            Except.ok () →
          (adeviceUpdateWithRetry
            (fun _ => Except.error "Read-only file system")
            (fun _ => Except.ok ())).1 = Except.ok ())
      ∧ (∀ e2,
          (fun _ : Nat => (Except.error "Read-only file system" : Except String Unit)) 1 =
            Except.error e2 →
          (adeviceUpdateWithRetry
            (fun _ => Except.error "Read-only file system")
            (fun _ => Except.ok ())).1 =
            Except.error ("Not expecting errors after a retry. Error:" ++ e2))) :=
  ⟨rfl, rfl,
    update_retries_exactly_once
      (fun _ => Except.error "Read-only file system")
      (fun _ => Except.ok ()) "Read-only file system" rfl rfl⟩

/-! ## Digest shape lemmas -/

theorem sha256_step_length (state : List UInt8) (b : UInt8) :
    ((match state with
      | [] => ([] : List UInt8)
      | h :: t => t ++ [h * 33 + b + 1]).length) = state.length := by
  cases state <;> simp

theorem sha256_foldl_length (l : List UInt8) (state : List UInt8) :
    (l.foldl
      (fun state b =>
        match state with
        | [] => []
        | h :: t => t ++ [h * 33 + b + 1])
      state).length = state.length := by
  induction l generalizing state with
  | nil => rfl
  | cons b t ih =>
    rw [List.foldl_cons, ih]
    exact sha256_step_length state b

theorem sha256_model_length (input : List UInt8) :
    (sha256_model input).length = 32 := by
  unfold sha256_model
  rw [sha256_foldl_length]
  simp

theorem compute_digest_ne_empty (contents : List UInt8) :
    compute_digest contents ≠ "" := by
  intro h
  have hdata := congrArg String.data h
  have hempty : ("" : String).data = [] := rfl
  simp only [compute_digest, hexEncode, hempty] at hdata
  cases hl : sha256_model contents with
  | nil =>
    have h32 := sha256_model_length contents
    rw [hl] at h32
    simp at h32
  | cons b t =>
    rw [hl] at hdata
    simp at hdata

/-- C9: every FileMetadata produced by fingerprint_file satisfies the
    FileEntry invariant: a File carries a non-empty digest (the hex hash
    of its contents) and an empty symlink target; a Symlink carries the
    raw target exactly as read and an empty digest; a Directory carries
    neither. -/
theorem fingerprint_file_metadata_invariant
    (fs : HostFilesystem) (file_path : FsPath) (metadata : FileMetadata)
    (h : fingerprint_file fs file_path = Except.ok metadata) :
    (metadata.file_type = FileType.File →
      metadata.digest ≠ "" ∧ metadata.symlink = "" ∧
      ∃ contents, fs.readEntry file_path = Except.ok (HostEntry.file contents) ∧
        metadata.digest = compute_digest contents)
    ∧ (metadata.file_type = FileType.Symlink →
      metadata.digest = "" ∧
      ∃ target, fs.readEntry file_path = Except.ok (HostEntry.symlink target) ∧
        metadata.symlink = target)
    ∧ (metadata.file_type = FileType.Directory →
      metadata.digest = "" ∧ metadata.symlink = "") := by
  unfold fingerprint_file at h
  cases hre : fs.readEntry file_path with
  | error e => rw [hre] at h; exact Except.noConfusion h
  | ok entry =>
    rw [hre] at h
    cases entry with
    | dir =>
      have hm := (Except.ok.inj h).symm
      subst hm
      refine ⟨?_, ?_, ?_⟩ <;> intro hft <;> simp_all
    | symlink target =>
      have hm := (Except.ok.inj h).symm
      subst hm
      refine ⟨?_, ?_, ?_⟩ <;> intro hft
      · simp at hft
      · exact ⟨rfl, target, rfl, rfl⟩
      · simp at hft
    | file contents =>
      have hm := (Except.ok.inj h).symm
      subst hm
      refine ⟨?_, ?_, ?_⟩ <;> intro hft
      · exact ⟨compute_digest_ne_empty contents, rfl, contents, rfl, rfl⟩
      · simp at hft
      · simp at hft
    | special => exact Except.noConfusion h

/-- Concrete instantiation of the FileEntry-invariant theorem at a
    dangling relative symlink. -/
theorem fingerprint_file_metadata_invariant_witness :
    (fingerprint_file
      (HostFilesystem.mk (fun _ => [])
        (fun _ => Except.ok (HostEntry.symlink "../not/existing")))
      ["system", "lnk"] =
      Except.ok (FileMetadata.mk FileType.Symlink "../not/existing" ""))
    ∧ ((FileMetadata.mk FileType.Symlink "../not/existing" "").file_type =
        FileType.File →
      (FileMetadata.mk FileType.Symlink "../not/existing" "").digest ≠ "" ∧
      (FileMetadata.mk FileType.Symlink "../not/existing" "").symlink = "" ∧
      ∃ contents,
        (HostFilesystem.mk (fun _ => [])
          (fun _ => Except.ok (HostEntry.symlink "../not/existing"))).readEntry
          ["system", "lnk"] = Except.ok (HostEntry.file contents) ∧
        (FileMetadata.mk FileType.Symlink "../not/existing" "").digest =
          compute_digest contents)
    ∧ ((FileMetadata.mk FileType.Symlink "../not/existing" "").file_type =
        FileType.Symlink →
      (FileMetadata.mk FileType.Symlink "../not/existing" "").digest = "" ∧
      ∃ target,
        (HostFilesystem.mk (fun _ => [])
          (fun _ => Except.ok (HostEntry.symlink "../not/existing"))).readEntry
          ["system", "lnk"] = Except.ok (HostEntry.symlink target) ∧
        (FileMetadata.mk FileType.Symlink "../not/existing" "").symlink =
          target)
    ∧ ((FileMetadata.mk FileType.Symlink "../not/existing" "").file_type =
        FileType.Directory →
      (FileMetadata.mk FileType.Symlink "../not/existing" "").digest = "" ∧
      (FileMetadata.mk FileType.Symlink "../not/existing" "").symlink = "") :=
  ⟨rfl,
    fingerprint_file_metadata_invariant
      (HostFilesystem.mk (fun _ => [])
        (fun _ => Except.ok (HostEntry.symlink "../not/existing")))
      ["system", "lnk"]
      (FileMetadata.mk FileType.Symlink "../not/existing" "") rfl⟩

/-! ## Restart decision combination -/

theorem restart_fold_flags (restart_types : List (String × RestartType))
    (files : List String) (acc : Bool × Bool) :
    files.foldl
      (fun (acc : Bool × Bool) installed_file =>
        match alookup restart_types installed_file with
        | some RestartType.Reboot => (acc.1, true)
        | some RestartType.SoftRestart => (true, acc.2)
        | some RestartType.None => acc
        | none => acc)
      acc =
    (acc.1 || files.any fun f =>
        rtDecision restart_types f = RestartType.SoftRestart,
     acc.2 || files.any fun f =>
        rtDecision restart_types f = RestartType.Reboot) := by
  induction files generalizing acc with
  | nil => simp
  | cons f t ih =>
    rw [List.foldl_cons, ih]
    cases hd : alookup restart_types f with
    | none =>
      simp [rtDecision, hd, List.any_cons]
    | some r =>
      cases r <;> simp [rtDecision, hd, List.any_cons, Bool.or_assoc]

theorem restart_type_eq_ifform (restart_types : List (String × RestartType))
    (files : List String) :
    restart_type restart_types files =
      (if files.any (fun f => rtDecision restart_types f = RestartType.Reboot)
        then RestartType.Reboot
        else if files.any (fun f =>
            rtDecision restart_types f = RestartType.SoftRestart)
          then RestartType.SoftRestart
          else RestartType.None) := by
  unfold restart_type
  rw [restart_fold_flags]
  simp

theorem foldr_rtMax_eq_ifform (restart_types : List (String × RestartType))
    (files : List String) :
    (files.map (rtDecision restart_types)).foldr rtMax RestartType.None =
      (if files.any (fun f => rtDecision restart_types f = RestartType.Reboot)
        then RestartType.Reboot
        else if files.any (fun f =>
            rtDecision restart_types f = RestartType.SoftRestart)
          then RestartType.SoftRestart
          else RestartType.None) := by
  induction files with
  | nil => simp
  | cons f t ih =>
    rw [List.map_cons, List.foldr_cons, ih]
    cases hdec : rtDecision restart_types f <;>
      cases hR : t.any (fun f =>
        rtDecision restart_types f = RestartType.Reboot) <;>
      cases hS : t.any (fun f =>
        rtDecision restart_types f = RestartType.SoftRestart) <;>
      simp [List.any_cons, hdec, hR, hS, rtMax, rtRank]

/-- C5: the combined restart decision is the maximum of the per-file
    decisions under Reboot > SoftRestart > None: Reboot when any file
    decides Reboot, otherwise SoftRestart when any file decides
    SoftRestart, otherwise None; the empty set yields None. -/
theorem restart_type_is_max_of_decisions
    (restart_types : List (String × RestartType)) (files : List String) :
    restart_type restart_types files =
      (files.map (rtDecision restart_types)).foldr rtMax RestartType.None
    ∧ restart_type restart_types [] = RestartType.None
    ∧ (restart_type restart_types files = RestartType.Reboot ↔
        ∃ f ∈ files, rtDecision restart_types f = RestartType.Reboot)
    ∧ (restart_type restart_types files = RestartType.SoftRestart ↔
        (∃ f ∈ files,
          rtDecision restart_types f = RestartType.SoftRestart) ∧
        ¬∃ f ∈ files, rtDecision restart_types f = RestartType.Reboot)
    ∧ (restart_type restart_types files = RestartType.None ↔
        ∀ f ∈ files, rtDecision restart_types f ≠ RestartType.Reboot ∧
          rtDecision restart_types f ≠ RestartType.SoftRestart) := by
  refine ⟨?_, rfl, ?_, ?_, ?_⟩
  · rw [restart_type_eq_ifform, foldr_rtMax_eq_ifform]
  · rw [restart_type_eq_ifform]
    cases hR : files.any (fun f =>
        rtDecision restart_types f = RestartType.Reboot) <;>
      cases hS : files.any (fun f =>
        rtDecision restart_types f = RestartType.SoftRestart) <;>
      simp_all [List.any_eq_true]
  · rw [restart_type_eq_ifform]
    cases hR : files.any (fun f =>
        rtDecision restart_types f = RestartType.Reboot) <;>
      cases hS : files.any (fun f =>
        rtDecision restart_types f = RestartType.SoftRestart) <;>
      simp_all [List.any_eq_true]
  · rw [restart_type_eq_ifform]
    cases hR : files.any (fun f =>
        rtDecision restart_types f = RestartType.Reboot) <;>
      cases hS : files.any (fun f =>
        rtDecision restart_types f = RestartType.SoftRestart) <;>
      simp_all [List.any_eq_true]
    all_goals first
      | (intro f hf
         exact ⟨hR f hf, hS f hf⟩)
      | (obtain ⟨f, hf, hdec⟩ := hR
         exact ⟨f, hf, fun hn => absurd hdec hn⟩)
      | (obtain ⟨f, hf, hdec⟩ := hS
         exact ⟨f, hf, fun _ => hdec⟩)

theorem contains_mem {α : Type} [BEq α] [LawfulBEq α] (l : List α) (a : α) :
    l.contains a = true ↔ a ∈ l := by
  simp

/-- C6: every (device path, decision) pair produced by the restart
    chooser comes from some module and follows the extension rules: the
    deny-list ("rc") forces Reboot regardless of the module's classes, the
    allow-list ("art", "oat", "vdex") yields SoftRestart, and anything
    else yields SoftRestart exactly when every class of the module is in
    {APPS, EXECUTABLES, JAVA_LIBRARIES, SHARED_LIBRARIES}, else Reboot. -/
theorem per_file_restart_decision_characterization
    (info : List Module) (device_path : String) (r : RestartType)
    (hmem : (device_path, r) ∈ restart_type_for_all_installed_files info) :
    ∃ m ∈ info,
      r = (if extensionOf device_path ∈ REBOOTS_FILE_EXTS then
          RestartType.Reboot
        else if extensionOf device_path ∈ SOFT_RESTART_FILE_EXTS then
          RestartType.SoftRestart
        else if ∀ c ∈ m.classes, c ∈ SOFT_RESET_GROUP then
          RestartType.SoftRestart
        else RestartType.Reboot) := by
  unfold restart_type_for_all_installed_files at hmem
  rw [List.mem_flatten] at hmem
  obtain ⟨entries, hent, hpair⟩ := hmem
  rw [List.mem_map] at hent
  obtain ⟨m, hm, rfl⟩ := hent
  refine ⟨m, hm, ?_⟩
  unfold moduleEntries at hpair
  rw [List.mem_filterMap] at hpair
  obtain ⟨inst, _, hfm⟩ := hpair
  by_cases h1 : (strip_product_out inst).getD "" = ""
  · simp [h1] at hfm
  by_cases h2 :
      should_force_reboot_on_filename ((strip_product_out inst).getD "")
  · simp [h1, h2] at hfm
    obtain ⟨hdp, hr⟩ := hfm
    subst hdp
    subst hr
    have hforce : extensionOf ((strip_product_out inst).getD "") ∈
        REBOOTS_FILE_EXTS := by
      have := h2
      unfold should_force_reboot_on_filename at this
      exact (contains_mem _ _).mp this
    rw [if_pos hforce]
  by_cases h3 :
      can_soft_restart_based_on_filename ((strip_product_out inst).getD "")
  · simp [h1, h2, h3] at hfm
    obtain ⟨hdp, hr⟩ := hfm
    subst hdp
    subst hr
    have hforce : ¬(extensionOf ((strip_product_out inst).getD "") ∈
        REBOOTS_FILE_EXTS) := by
      intro hin
      exact h2 ((contains_mem _ _).mpr hin)
    have hsoft : extensionOf ((strip_product_out inst).getD "") ∈
        SOFT_RESTART_FILE_EXTS := by
      have := h3
      unfold can_soft_restart_based_on_filename at this
      exact (contains_mem _ _).mp this
    rw [if_neg hforce, if_pos hsoft]
  · simp [h1, h2, h3] at hfm
    obtain ⟨hdp, hr⟩ := hfm
    subst hdp
    subst hr
    have hforce : ¬(extensionOf ((strip_product_out inst).getD "") ∈
        REBOOTS_FILE_EXTS) := by
      intro hin
      exact h2 ((contains_mem _ _).mpr hin)
    have hsoft : ¬(extensionOf ((strip_product_out inst).getD "") ∈
        SOFT_RESTART_FILE_EXTS) := by
      intro hin
      exact h3 ((contains_mem _ _).mpr hin)
    rw [if_neg hforce, if_neg hsoft]
    unfold restart_type_for_classes
    by_cases hall : ∀ c ∈ m.classes, c ∈ SOFT_RESET_GROUP
    · rw [if_pos hall]
      have hany : m.classes.any (fun c => !(SOFT_RESET_GROUP.contains c)) =
          false := by
        rw [List.any_eq_false]
        intro c hc
        simp [hall c hc]
      rw [hany]
      simp
    · rw [if_neg hall]
      have hany : m.classes.any (fun c => !(SOFT_RESET_GROUP.contains c)) =
          true := by
        rw [List.any_eq_true]
        push_neg at hall
        obtain ⟨c, hc, hnot⟩ := hall
        refine ⟨c, hc, ?_⟩
        simp [contains_mem]
        exact hnot
      rw [hany]
      simp

/-- Concrete instantiation of the per-file restart characterization: an
    init script installed by an EXECUTABLES module still forces Reboot. -/
theorem per_file_restart_decision_characterization_witness :
    (("system/bin/x.rc", RestartType.Reboot) ∈
      restart_type_for_all_installed_files
        [Module.mk ["EXECUTABLES"]
          ["out/target/product/vsoc/system/bin/x.rc"]])
    ∧ ∃ m ∈ [Module.mk ["EXECUTABLES"]
          ["out/target/product/vsoc/system/bin/x.rc"]],
        RestartType.Reboot =
          (if extensionOf "system/bin/x.rc" ∈ REBOOTS_FILE_EXTS then
              RestartType.Reboot
            else if extensionOf "system/bin/x.rc" ∈ SOFT_RESTART_FILE_EXTS then
              RestartType.SoftRestart
            else if ∀ c ∈ m.classes, c ∈ SOFT_RESET_GROUP then
              RestartType.SoftRestart
            else RestartType.Reboot) :=
  ⟨by decide,
    per_file_restart_decision_characterization
      [Module.mk ["EXECUTABLES"] ["out/target/product/vsoc/system/bin/x.rc"]]
      "system/bin/x.rc" RestartType.Reboot (by decide)⟩

/-! ## collectE lemmas -/

theorem collectE_error_of_mem {α : Type} (l : List (Except String α))
    (e : String) (h : Except.error e ∈ l) :
    ∃ e2, collectE l = Except.error e2 := by
  induction l with
  | nil => simp at h
  | cons x rest ih =>
    cases x with
    | error e3 => exact ⟨e3, rfl⟩
    | ok a =>
      have hmem : Except.error e ∈ rest := by
        rcases List.mem_cons.mp h with h1 | h1
        · exact Except.noConfusion h1
        · exact h1
      obtain ⟨e2, hce⟩ := ih hmem
      refine ⟨e2, ?_⟩
      simp [collectE, hce]

theorem collectE_ok_mem {α : Type} (l : List (Except String α))
    (out : List α) (h : collectE l = Except.ok out) (a : α)
    (ha : Except.ok a ∈ l) : a ∈ out := by
  induction l generalizing out with
  | nil => simp at ha
  | cons x rest ih =>
    cases x with
    | error e => exact Except.noConfusion h
    | ok b =>
      cases hrest : collectE rest with
      | error e =>
        rw [show collectE (Except.ok b :: rest) =
            match collectE rest with
            | Except.error e => Except.error e
            | Except.ok as => Except.ok (b :: as) from rfl, hrest] at h
        exact Except.noConfusion h
      | ok as =>
        rw [show collectE (Except.ok b :: rest) =
            match collectE rest with
            | Except.error e => Except.error e
            | Except.ok as => Except.ok (b :: as) from rfl, hrest] at h
        have hout : out = b :: as := (Except.ok.inj h).symm
        subst hout
        rcases List.mem_cons.mp ha with h1 | h1
        · exact List.mem_cons.mpr (Or.inl (Except.ok.inj h1))
        · exact List.mem_cons.mpr (Or.inr (ih as hrest h1))

/-- C8: if any filesystem entry under the partitions cannot be read —
    the enumeration itself yields an error, or reading the metadata or
    contents of an enumerated file fails — then fingerprint_partitions
    fails as a whole and returns no partial fingerprint map. -/
theorem fingerprint_partitions_no_partial_map
    (fs : HostFilesystem) (partition_root : FsPath)
    (partition_names : List FsPath)
    (hfail :
      (∃ e, Except.error e ∈ walkedFiles fs partition_root partition_names) ∨
      (∃ f e, Except.ok f ∈ walkedFiles fs partition_root partition_names ∧
        fs.readEntry f = Except.error e)) :
    ∃ e2, fingerprint_partitions fs partition_root partition_names =
      Except.error e2 := by
  unfold fingerprint_partitions
  cases hw : collectE (walkedFiles fs partition_root partition_names) with
  | error e => exact ⟨e, rfl⟩
  | ok filenames =>
    rcases hfail with ⟨e, hmem⟩ | ⟨f, e, hmem, hre⟩
    · obtain ⟨e2, hce⟩ := collectE_error_of_mem _ e hmem
      rw [hw] at hce
      exact Except.noConfusion hce
    · have hf : f ∈ filenames := collectE_ok_mem _ _ hw f hmem
      have hmem2 : Except.error e ∈ filenames.map fun f =>
          match fs.readEntry f with
          | Except.error e => Except.error e
          | Except.ok entry => Except.ok (f, entry) := by
        rw [List.mem_map]
        exact ⟨f, hf, by rw [hre]⟩
      obtain ⟨e2, hce⟩ := collectE_error_of_mem _ e hmem2
      exact ⟨e2, by simp [hce]⟩

/-- Concrete instantiation of the no-partial-map theorem: a permission
    error during enumeration fails the whole fingerprint call. -/
theorem fingerprint_partitions_no_partial_map_witness :
    ((∃ e, Except.error e ∈ walkedFiles
        (HostFilesystem.mk
          (fun _ => [Except.ok ["system", "f"],
            Except.error "permission denied"])
          (fun _ => Except.ok HostEntry.dir))
        [] [["system"]]) ∨
      (∃ f e, Except.ok f ∈ walkedFiles
          (HostFilesystem.mk
            (fun _ => [Except.ok ["system", "f"],
              Except.error "permission denied"])
            (fun _ => Except.ok HostEntry.dir))
          [] [["system"]] ∧
        (HostFilesystem.mk
          (fun _ => [Except.ok ["system", "f"],
            Except.error "permission denied"])
          (fun _ => Except.ok HostEntry.dir)).readEntry f =
          Except.error e))
    ∧ ∃ e2, fingerprint_partitions
        (HostFilesystem.mk
          (fun _ => [Except.ok ["system", "f"],
            Except.error "permission denied"])
          (fun _ => Except.ok HostEntry.dir))
        [] [["system"]] = Except.error e2 :=
  ⟨Or.inl ⟨"permission denied", by simp [walkedFiles]⟩,
    fingerprint_partitions_no_partial_map
      (HostFilesystem.mk
        (fun _ => [Except.ok ["system", "f"],
          Except.error "permission denied"])
        (fun _ => Except.ok HostEntry.dir))
      [] [["system"]]
      (Or.inl ⟨"permission denied", by simp [walkedFiles]⟩)⟩

/-! ## Shadowed-apk exclusion -/

theorem mem_dedupAux (l : List FsPath) (seen : List FsPath) (q : FsPath) :
    q ∈ dedupAux seen l ↔ q ∈ l ∧ q ∉ seen := by
  induction l generalizing seen with
  | nil => simp [dedupAux]
  | cons p rest ih =>
    by_cases hp : p ∈ seen
    · rw [show dedupAux seen (p :: rest) = dedupAux seen rest by
        simp [dedupAux, hp]]
      rw [ih]
      constructor
      · rintro ⟨h1, h2⟩
        exact ⟨List.mem_cons_of_mem _ h1, h2⟩
      · rintro ⟨h1, h2⟩
        rcases List.mem_cons.mp h1 with h3 | h3
        · exact absurd (h3 ▸ hp) h2
        · exact ⟨h3, h2⟩
    · rw [show dedupAux seen (p :: rest) = p :: dedupAux (p :: seen) rest by
        simp [dedupAux, hp]]
      constructor
      · intro h
        rcases List.mem_cons.mp h with h1 | h1
        · exact ⟨h1 ▸ List.mem_cons_self _ _, h1 ▸ hp⟩
        · obtain ⟨h2, h3⟩ := (ih (p :: seen)).mp h1
          refine ⟨List.mem_cons_of_mem _ h2, fun hc => h3 ?_⟩
          exact List.mem_cons_of_mem _ hc
      · rintro ⟨h1, h2⟩
        rcases List.mem_cons.mp h1 with h3 | h3
        · exact h3 ▸ List.mem_cons_self _ _
        · by_cases hq : q = p
          · exact hq ▸ List.mem_cons_self _ _
          · refine List.mem_cons_of_mem _ ((ih (p :: seen)).mpr ⟨h3, ?_⟩)
            intro hc
            rcases List.mem_cons.mp hc with h4 | h4
            · exact hq h4
            · exact h2 h4

theorem mem_dedupPaths (l : List FsPath) (q : FsPath) :
    q ∈ dedupPaths l ↔ q ∈ l := by
  unfold dedupPaths
  rw [mem_dedupAux]
  simp

theorem mapM_option_mem {α β : Type} (g : α → Option β) (l : List α)
    (out : List β) (h : l.mapM g = some out) (x : α) (hx : x ∈ l) :
    ∃ y, g x = some y ∧ y ∈ out := by
  induction l generalizing out with
  | nil => simp at hx
  | cons a t ih =>
    rw [List.mapM_cons] at h
    cases hga : g a with
    | none => rw [hga] at h; simp at h
    | some y =>
      rw [hga] at h
      cases hmt : t.mapM g with
      | none => rw [hmt] at h; simp at h
      | some ys =>
        rw [hmt] at h
        simp at h
        rcases List.mem_cons.mp hx with h1 | h1
        · subst h1
          exact ⟨y, hga, h ▸ List.mem_cons_self _ _⟩
        · obtain ⟨y2, hy2, hmem2⟩ := ih ys hmt h1
          exact ⟨y2, hy2, h ▸ List.mem_cons_of_mem _ hmem2⟩

theorem mem_of_mem_filterMap_id {α β : Type}
    (f : α × β → Option (α × β))
    (hf : ∀ e, f e = some e ∨ f e = none)
    (m : List (α × β)) (e : α × β) (h : e ∈ m.filterMap f) : e ∈ m := by
  rw [List.mem_filterMap] at h
  obtain ⟨e2, he2, hfe⟩ := h
  rcases hf e2 with h2 | h2
  · rw [h2] at hfe
    exact (Option.some.inj hfe) ▸ he2
  · rw [h2] at hfe
    exact Option.noConfusion hfe

/-- C3: a path whose computed push-state is ApkInstalled is removed from
    the host set before the diff, so the composed upserts never contain
    it — a shadowed apk is never pushed. -/
theorem shadowed_apk_never_pushed
    (device_tree host_tree : FpMap) (ninja_installed_files : List FsPath)
    (product_out : FsPath) (installed : FsPath → Bool) (mode : DiffMode)
    (partitions : List FsPath) (cmds : Commands) (p : FsPath)
    (hcmds : get_update_commands device_tree host_tree ninja_installed_files
      product_out installed mode partitions = some cmds)
    (hstate : file_push_state (trackedSetOf ninja_installed_files partitions)
      host_tree device_tree installed mode p =
      some PushState.ApkInstalled) :
    alookup cmds.upserts p = none := by
  cases hcol : collect_status_per_file
      (trackedSetOf ninja_installed_files partitions) host_tree device_tree
      installed mode with
  | none =>
    unfold get_update_commands at hcmds
    simp [hcol] at hcmds
  | some status =>
    unfold get_update_commands at hcmds
    simp only [hcol] at hcmds
    have hc := (Option.some.inj hcmds).symm
    subst hc
    cases hlook : alookup (compose (diffM
        (host_tree.filter fun e =>
          decide (e.1 ∈ trackedSetOf ninja_installed_files partitions) &&
          !(decide (e.1 ∈
            ((status.filter fun e => e.2 = PushState.ApkInstalled).map
              Prod.fst))))
        device_tree mode) product_out).upserts p with
    | none => rfl
    | some v =>
      exfalso
      have hmemup := mem_of_alookup_eq_some _ _ _ hlook
      rw [show (compose (diffM
          (host_tree.filter fun e =>
            decide (e.1 ∈ trackedSetOf ninja_installed_files partitions) &&
            !(decide (e.1 ∈
              ((status.filter fun e => e.2 = PushState.ApkInstalled).map
                Prod.fst))))
          device_tree mode) product_out).upserts =
        ((diffM (host_tree.filter fun e =>
            decide (e.1 ∈ trackedSetOf ninja_installed_files partitions) &&
            !(decide (e.1 ∈
              ((status.filter fun e => e.2 = PushState.ApkInstalled).map
                Prod.fst))))
          device_tree mode).device_needs ++
         (diffM (host_tree.filter fun e =>
            decide (e.1 ∈ trackedSetOf ninja_installed_files partitions) &&
            !(decide (e.1 ∈
              ((status.filter fun e => e.2 = PushState.ApkInstalled).map
                Prod.fst))))
          device_tree mode).device_diffs).map
          (fun e => (e.1,
            match e.2.file_type with
            | FileType.File =>
              command_args
                (AdbAction.Push (pathString (pathJoin product_out e.1))) e.1
            | FileType.Symlink =>
              command_args (AdbAction.Symlink e.2.symlink) e.1
            | FileType.Directory => command_args AdbAction.Mkdir e.1))
        from rfl] at hmemup
      rw [List.mem_map] at hmemup
      obtain ⟨e, he, heq⟩ := hmemup
      have hfst : e.1 = p := congrArg Prod.fst heq
      have hefiltered : e ∈ host_tree.filter fun e =>
          decide (e.1 ∈ trackedSetOf ninja_installed_files partitions) &&
          !(decide (e.1 ∈
            ((status.filter fun e => e.2 = PushState.ApkInstalled).map
              Prod.fst))) := by
        rcases List.mem_append.mp he with h1 | h1
        · refine mem_of_mem_filterMap_id _ ?_ _ _ h1
          intro e2
          cases alookup device_tree e2.1 <;> simp
        · refine mem_of_mem_filterMap_id _ ?_ _ _ h1
          intro e2
          cases alookup device_tree e2.1 with
          | none => simp
          | some dm =>
            by_cases hmd : is_metadata_diff dm e2.2 mode <;> simp [hmd]
      have hcond := (List.mem_filter.mp hefiltered).2
      have hehost := (List.mem_filter.mp hefiltered).1
      rw [Bool.and_eq_true] at hcond
      have hnotshadow : e.1 ∉
          ((status.filter fun e => e.2 = PushState.ApkInstalled).map
            Prod.fst) := by
        have := hcond.2
        rw [Bool.not_eq_true'] at this
        exact of_decide_eq_false this
      have hpstatus : (p, PushState.ApkInstalled) ∈ status := by
        have hcol2 := hcol
        unfold collect_status_per_file at hcol2
        have hpin : p ∈ dedupPaths (host_tree.map Prod.fst ++
            device_tree.map Prod.fst ++
            trackedSetOf ninja_installed_files partitions) := by
          rw [mem_dedupPaths]
          refine List.mem_append.mpr (Or.inl (List.mem_append.mpr (Or.inl ?_)))
          exact List.mem_map.mpr ⟨e, hehost, hfst⟩
        obtain ⟨y, hgy, hymem⟩ := mapM_option_mem _ _ _ hcol2 p hpin
        rw [hstate] at hgy
        have hy : y = (p, PushState.ApkInstalled) :=
          (Option.some.inj hgy).symm
        exact hy ▸ hymem
      apply hnotshadow
      rw [hfst]
      exact List.mem_map.mpr ⟨(p, PushState.ApkInstalled),
        List.mem_filter.mpr ⟨hpstatus, by simp⟩, rfl⟩

/-- Concrete instantiation of the shadowed-apk exclusion: Foo.apk differs
    between host and device, its package is installed, so the update
    commands delete nothing about it from upserts. -/
theorem shadowed_apk_never_pushed_witness :
    (get_update_commands
      [(["system", "app", "Foo.apk"], FileMetadata.mk FileType.File "" "digB")]
      [(["system", "app", "Foo.apk"], FileMetadata.mk FileType.File "" "digA")]
      [["system", "app", "Foo.apk"]] ["out"] (fun _ => true)
      DiffMode.IgnorePermissions [["system"]] =
      some (Commands.mk []
        [(["system", "app", "Foo.apk"],
          ["shell", "rm", "system/app/Foo.apk"])]))
    ∧ (file_push_state
        (trackedSetOf [["system", "app", "Foo.apk"]] [["system"]])
        [(["system", "app", "Foo.apk"], FileMetadata.mk FileType.File "" "digA")]
        [(["system", "app", "Foo.apk"], FileMetadata.mk FileType.File "" "digB")]
        (fun _ => true) DiffMode.IgnorePermissions
        ["system", "app", "Foo.apk"] = some PushState.ApkInstalled)
    ∧ alookup (Commands.mk []
        [(["system", "app", "Foo.apk"],
          ["shell", "rm", "system/app/Foo.apk"])] : Commands).upserts
        ["system", "app", "Foo.apk"] = none :=
  ⟨by decide, by decide,
    shadowed_apk_never_pushed
      [(["system", "app", "Foo.apk"], FileMetadata.mk FileType.File "" "digB")]
      [(["system", "app", "Foo.apk"], FileMetadata.mk FileType.File "" "digA")]
      [["system", "app", "Foo.apk"]] ["out"] (fun _ => true)
      DiffMode.IgnorePermissions [["system"]]
      (Commands.mk []
        [(["system", "app", "Foo.apk"],
          ["shell", "rm", "system/app/Foo.apk"])])
      ["system", "app", "Foo.apk"] (by decide) (by decide)⟩

/-! ## Command-ordering lemmas -/

theorem compareChars_self (l : List Char) : compareChars l l = Ordering.eq := by
  induction l with
  | nil => rfl
  | cons a t ih => simp [compareChars, ih]

theorem compareChars_append_right (as bs : List Char) (h : bs ≠ []) :
    compareChars (as ++ bs) as = Ordering.gt := by
  induction as with
  | nil =>
    cases bs with
    | nil => exact absurd rfl h
    | cons b t => rfl
  | cons a t ih => simp [compareChars, ih]

theorem compareChars_common (cs as bs : List Char) :
    compareChars (cs ++ as) (cs ++ bs) = compareChars as bs := by
  induction cs with
  | nil => rfl
  | cons c t ih => simp [compareChars, ih]

theorem compareChars_gt_head (a b : Char) (as bs : List Char) (h : b < a) :
    compareChars (a :: as) (b :: bs) = Ordering.gt := by
  have h1 : ¬(a < b) := asymm h
  simp [compareChars, h, h1]

theorem comparePath_append_right (P R : FsPath) (h : R ≠ []) :
    comparePath (P ++ R) P = Ordering.gt := by
  induction P with
  | nil =>
    cases R with
    | nil => exact absurd rfl h
    | cons r t => rfl
  | cons p t ih => simp [comparePath, compareChars_self, ih]

theorem joinedArgs_deleteFile (p : FsPath) :
    AdbCmd.joinedArgs (AdbCmd.mk AdbAction.DeleteFile p) =
      "shell rm ".data ++ pathChars p := rfl

theorem joinedArgs_deleteDir (p : FsPath) :
    AdbCmd.joinedArgs (AdbCmd.mk AdbAction.DeleteDir p) =
      "shell rm -rf ".data ++ pathChars p := rfl

theorem sepJoin_append (sep : Char) (as bs : List (List Char))
    (ha : as ≠ []) (hb : bs ≠ []) :
    sepJoin sep (as ++ bs) = sepJoin sep as ++ sep :: sepJoin sep bs := by
  induction as with
  | nil => exact absurd rfl ha
  | cons x t ih =>
    cases t with
    | nil =>
      cases bs with
      | nil => exact absurd rfl hb
      | cons y u => simp [sepJoin]
    | cons x2 t2 =>
      have h2 := ih (by simp)
      calc sepJoin sep ((x :: x2 :: t2) ++ bs)
          = x ++ sep :: sepJoin sep ((x2 :: t2) ++ bs) := rfl
        _ = x ++ sep :: (sepJoin sep (x2 :: t2) ++ sep :: sepJoin sep bs) := by
            rw [h2]
        _ = (x ++ sep :: sepJoin sep (x2 :: t2)) ++ sep :: sepJoin sep bs := by
            simp
        _ = sepJoin sep (x :: x2 :: t2) ++ sep :: sepJoin sep bs := rfl

theorem pathChars_append (P R : FsPath) (hP : P ≠ []) (hR : R ≠ []) :
    pathChars (P ++ R) = pathChars P ++ '/' :: pathChars R := by
  unfold pathChars
  rw [List.map_append]
  exact sepJoin_append '/' _ _ (by simpa using hP) (by simpa using hR)

theorem goodRmPath_ne_nil (p : FsPath) (h : GoodRmPath p) : p ≠ [] := by
  intro hnil
  subst hnil
  exact h

theorem goodRmPath_head (p : FsPath) (h : GoodRmPath p) :
    ∃ c cs, pathChars p = c :: cs ∧ ('-' : Char) < c := by
  unfold GoodRmPath at h
  cases hpc : pathChars p with
  | nil => rw [hpc] at h; exact absurd h (by simp)
  | cons c cs =>
    rw [hpc] at h
    exact ⟨c, cs, rfl, h⟩

theorem is_mkdir_false_of_is_rm (c : AdbCmd) (h : c.is_rm = true) :
    c.is_mkdir = false := by
  obtain ⟨act, p⟩ := c
  cases act <;> simp [AdbCmd.is_rm, AdbCmd.is_mkdir] at *

theorem cmp_gt_nonmkdir_mkdir (a b : AdbCmd)
    (ha : a.is_mkdir = false) (hb : b.is_mkdir = true) :
    mkdir_comes_first_rm_dfs a b = Ordering.gt := by
  simp [mkdir_comes_first_rm_dfs, ha, hb]

theorem cmp_gt_mkdir_child (a b : AdbCmd)
    (ha : a.is_mkdir = true) (hb : b.is_mkdir = true)
    (r : FsPath) (hr : r ≠ []) (heq : a.device_path = b.device_path ++ r) :
    mkdir_comes_first_rm_dfs a b = Ordering.gt := by
  simp only [mkdir_comes_first_rm_dfs, ha, hb]
  simp only [Bool.not_true, Bool.false_and, Bool.and_self, if_false, if_true]
  rw [heq]
  simp [comparePath_append_right _ _ hr]

theorem cmp_rm_rm (a b : AdbCmd) (har : a.is_rm = true) (hbr : b.is_rm = true) :
    mkdir_comes_first_rm_dfs a b =
      compareChars b.joinedArgs a.joinedArgs := by
  have ham := is_mkdir_false_of_is_rm a har
  have hbm := is_mkdir_false_of_is_rm b hbr
  simp [mkdir_comes_first_rm_dfs, ham, hbm, har, hbr]

theorem cmp_gt_upsert_rm (a b : AdbCmd)
    (ham : a.is_mkdir = false) (har : a.is_rm = false)
    (hbr : b.is_rm = true) :
    mkdir_comes_first_rm_dfs a b = Ordering.gt := by
  have hbm := is_mkdir_false_of_is_rm b hbr
  simp [mkdir_comes_first_rm_dfs, ham, hbm, har, hbr]

theorem shell_rm_rf_split :
    ("shell rm -rf ".data : List Char) = "shell rm ".data ++ "-rf ".data := by
  decide

theorem dash_head :
    ("-rf ".data : List Char) = '-' :: "rf ".data := by
  decide

theorem cmp_dd_desc (P X : FsPath) (act : AdbAction)
    (hact : act = AdbAction.DeleteFile ∨ act = AdbAction.DeleteDir)
    (r : FsPath) (hr : r ≠ []) (hX : X = P ++ r) (hg : GoodRmPath P) :
    mkdir_comes_first_rm_dfs (AdbCmd.mk AdbAction.DeleteDir P)
      (AdbCmd.mk act X) = Ordering.gt := by
  obtain ⟨c, cs, hpc, hc⟩ := goodRmPath_head P hg
  have hPne := goodRmPath_ne_nil P hg
  rcases hact with rfl | rfl
  · rw [cmp_rm_rm _ _ (by simp [AdbCmd.is_rm]) (by simp [AdbCmd.is_rm]),
      joinedArgs_deleteFile, joinedArgs_deleteDir, shell_rm_rf_split,
      List.append_assoc, compareChars_common, hX,
      pathChars_append P r hPne hr, hpc, dash_head]
    rw [List.cons_append]
    exact compareChars_gt_head c '-' _ _ hc
  · rw [cmp_rm_rm _ _ (by simp [AdbCmd.is_rm]) (by simp [AdbCmd.is_rm]),
      joinedArgs_deleteDir, joinedArgs_deleteDir, compareChars_common, hX,
      pathChars_append P r hPne hr]
    exact compareChars_append_right _ _ (by simp)

theorem cmp_dd_df (G F : FsPath) (hg : GoodRmPath F) :
    mkdir_comes_first_rm_dfs (AdbCmd.mk AdbAction.DeleteDir G)
      (AdbCmd.mk AdbAction.DeleteFile F) = Ordering.gt := by
  obtain ⟨c, cs, hpc, hc⟩ := goodRmPath_head F hg
  rw [cmp_rm_rm _ _ (by simp [AdbCmd.is_rm]) (by simp [AdbCmd.is_rm]),
    joinedArgs_deleteFile, joinedArgs_deleteDir, shell_rm_rf_split,
    List.append_assoc, compareChars_common, hpc, dash_head]
  exact compareChars_gt_head c '-' _ _ hc

theorem pairwise_imp_of_mem_local {α : Type} {R S : α → α → Prop}
    {l : List α} (H : ∀ a b, a ∈ l → b ∈ l → R a b → S a b)
    (hp : l.Pairwise R) : l.Pairwise S := by
  induction l with
  | nil => exact List.Pairwise.nil
  | cons x t ih =>
    rw [List.pairwise_cons] at hp ⊢
    refine ⟨fun y hy => H x y (List.mem_cons_self _ _)
      (List.mem_cons_of_mem _ hy) (hp.1 y hy), ?_⟩
    exact ih (fun a b hat hbt hr =>
      H a b (List.mem_cons_of_mem _ hat) (List.mem_cons_of_mem _ hbt) hr) hp.2

/-- C4 (amended): in a list sorted by mkdir_comes_first_rm_dfs whose
    delete targets are non-empty paths beginning with a character above
    the ASCII dash (true of real device paths, which start with a
    partition name), every mkdir precedes every non-mkdir, no mkdir for a
    child directory precedes its parent, no push or symlink precedes a
    delete, no directory delete precedes the delete of one of its
    descendants, and no directory delete precedes any file delete. -/
theorem update_command_order_invariant (l : List AdbCmd)
    (hsorted : SortedByCmp l)
    (hgood : ∀ c ∈ l, c.is_rm = true → GoodRmPath c.device_path) :
    l.Pairwise fun a b =>
      (b.is_mkdir = true → a.is_mkdir = true)
      ∧ (a.is_mkdir = true → b.is_mkdir = true →
          ¬StrictAncestor b.device_path a.device_path)
      ∧ (a.is_mkdir = false → a.is_rm = false → b.is_rm = false)
      ∧ (a.action = AdbAction.DeleteDir → b.is_rm = true →
          ¬StrictAncestor a.device_path b.device_path)
      ∧ (a.action = AdbAction.DeleteDir →
          b.action ≠ AdbAction.DeleteFile) := by
  refine pairwise_imp_of_mem_local ?_ hsorted
  intro a b ha hb hR
  refine ⟨?_, ?_, ?_, ?_, ?_⟩
  · intro hbm
    by_cases ham : a.is_mkdir = true
    · exact ham
    · have ham2 : a.is_mkdir = false := by
        revert ham
        cases a.is_mkdir <;> simp
      exact absurd (cmp_gt_nonmkdir_mkdir a b ham2 hbm) hR
  · intro ham hbm hanc
    obtain ⟨r, hr, heq⟩ := hanc
    exact hR (cmp_gt_mkdir_child a b ham hbm r hr heq)
  · intro ham har
    by_cases hbr : b.is_rm = true
    · exact absurd (cmp_gt_upsert_rm a b ham har hbr) hR
    · revert hbr
      cases b.is_rm <;> simp
  · intro haDD hbr hanc
    obtain ⟨r, hr, heq⟩ := hanc
    have hga : GoodRmPath a.device_path :=
      hgood a ha (by obtain ⟨aact, apath⟩ := a; cases aact <;>
        simp_all [AdbCmd.is_rm])
    obtain ⟨aact, apath⟩ := a
    obtain ⟨bact, bpath⟩ := b
    simp only at haDD heq hga
    subst haDD
    have hbact : bact = AdbAction.DeleteFile ∨ bact = AdbAction.DeleteDir := by
      cases bact <;> simp_all [AdbCmd.is_rm]
    exact hR (cmp_dd_desc apath bpath bact hbact r hr heq hga)
  · intro haDD hbDF
    have hgb : GoodRmPath b.device_path :=
      hgood b hb (by obtain ⟨bact, bpath⟩ := b; cases bact <;>
        simp_all [AdbCmd.is_rm])
    obtain ⟨aact, apath⟩ := a
    obtain ⟨bact, bpath⟩ := b
    simp only at haDD hbDF hgb
    subst haDD
    subst hbDF
    exact hR (cmp_dd_df apath bpath hgb)

/-- Concrete instantiation of the amended ordering invariant on a sorted
    command list over the system partition. -/
theorem update_command_order_invariant_witness :
    SortedByCmp
      [AdbCmd.mk AdbAction.Mkdir ["system"],
       AdbCmd.mk AdbAction.DeleteFile ["system", "app", "x.apk"],
       AdbCmd.mk AdbAction.DeleteDir ["system", "app"]]
    ∧ (∀ c ∈ [AdbCmd.mk AdbAction.Mkdir ["system"],
        AdbCmd.mk AdbAction.DeleteFile ["system", "app", "x.apk"],
        AdbCmd.mk AdbAction.DeleteDir ["system", "app"]],
        c.is_rm = true → GoodRmPath c.device_path)
    ∧ List.Pairwise (fun a b : AdbCmd =>
        (b.is_mkdir = true → a.is_mkdir = true)
        ∧ (a.is_mkdir = true → b.is_mkdir = true →
            ¬StrictAncestor b.device_path a.device_path)
        ∧ (a.is_mkdir = false → a.is_rm = false → b.is_rm = false)
        ∧ (a.action = AdbAction.DeleteDir → b.is_rm = true →
            ¬StrictAncestor a.device_path b.device_path)
        ∧ (a.action = AdbAction.DeleteDir →
            b.action ≠ AdbAction.DeleteFile))
      [AdbCmd.mk AdbAction.Mkdir ["system"],
       AdbCmd.mk AdbAction.DeleteFile ["system", "app", "x.apk"],
       AdbCmd.mk AdbAction.DeleteDir ["system", "app"]] :=
  ⟨by decide, by decide,
    update_command_order_invariant
      [AdbCmd.mk AdbAction.Mkdir ["system"],
       AdbCmd.mk AdbAction.DeleteFile ["system", "app", "x.apk"],
       AdbCmd.mk AdbAction.DeleteDir ["system", "app"]]
      (by decide) (by decide)⟩

/-- Counterexample to C4 as stated: for a directory whose path begins
    with a character below the ASCII dash, the comparator places the
    directory's delete before the delete of its own descendant — the list
    [rm -rf !a, rm !a/b] is sorted by the comparator, !a is a strict
    ancestor of !a/b, and the comparator actually orders the descendant's
    command strictly after the directory's. -/
theorem rm_sort_parent_dir_before_descendant_cex :
    SortedByCmp
      [AdbCmd.mk AdbAction.DeleteDir ["!a"],
       AdbCmd.mk AdbAction.DeleteFile ["!a", "b"]]
    ∧ StrictAncestor ["!a"] ["!a", "b"]
    ∧ mkdir_comes_first_rm_dfs
        (AdbCmd.mk AdbAction.DeleteFile ["!a", "b"])
        (AdbCmd.mk AdbAction.DeleteDir ["!a"]) = Ordering.gt := by
  refine ⟨by decide, ⟨["b"], by decide, by decide⟩, by decide⟩

end Adevice
